import Mathlib

set_option maxRecDepth 10000

/-!
Verification of the GitHub-notifications block of i3status-rust
(`src/blocks/github.rs`): the Link-header parser, the paginated
notifications fetcher, and the reason-count aggregation performed by
`Github::update`, together with the `Github::view` visibility rule.

Rust `HashMap`s whose contents the claims inspect are modelled as
association lists with the same insert/lookup semantics (`insert`
overwrites, `entry(..).and_modify(..).or_insert(..)` bumps or seeds an
entry).  `u64` counters are modelled as `Nat`: every count produced here
is bounded by the number of fetched records, so 64-bit wrap-around is
unreachable.  Fallible Rust code returns `Except String`.
-/

namespace Github

/-- One decoded notification record: `struct Notification { reason: String }`. -/
structure Notification where
  reason : String
deriving DecidableEq

/-- Lookup in an association list, the model of `HashMap::get`. -/
def lookupA {α : Type} (m : List (String × α)) (k : String) : Option α :=
  match m with
  | [] => none
  | p :: rest => if p.1 = k then some p.2 else lookupA rest k

/-- `HashMap::insert`: overwrite the entry for `k` if present, else add it. -/
def insertA {α : Type} (m : List (String × α)) (k : String) (v : α) : List (String × α) :=
  match m with
  | [] => [(k, v)]
  | p :: rest => if p.1 = k then (k, v) :: rest else p :: insertA rest k v

/-- `acc.entry(k).and_modify(|v| *v += 1).or_insert(1)`:
increment the entry for `k`, inserting it with value 1 when absent. -/
def bumpOrInsert (m : List (String × Nat)) (k : String) : List (String × Nat) :=
  match m with
  | [] => [(k, 1)]
  | p :: rest => if p.1 = k then (p.1, p.2 + 1) :: rest else p :: bumpOrInsert rest k

/-- `acc.entry(k).and_modify(|v| *v += 1)` with no `or_insert`:
increment the entry for `k` when present, do nothing when absent. -/
def bumpIfPresent (m : List (String × Nat)) (k : String) : List (String × Nat) :=
  m.map fun p => if p.1 = k then (p.1, p.2 + 1) else p

/-- The seed of the fold in `Github::update`: `map!("total".to_owned() => 0)`. -/
def seedTally : List (String × Nat) := [("total", 0)]

/-- The body of the closure passed to `try_fold` in `Github::update`,
applied to an already-unwrapped notification. -/
def aggStep (acc : List (String × Nat)) (n : Notification) : List (String × Nat) :=
  bumpIfPresent (bumpOrInsert acc n.reason) "total"

/-- `Iterator::try_fold` over the items yielded by the `Notifications`
iterator: stops at the first `Err` item (the `let n = notif?` line),
otherwise threads the accumulator through `aggStep`. -/
def tryFoldNotifs :
    List (Except String Notification) → List (String × Nat) →
    Except String (List (String × Nat))
  | [], acc => .ok acc
  | item :: rest, acc =>
    match item with
    | .error e => .error e
    | .ok n => tryFoldNotifs rest (aggStep acc n)

/-- Number of records in `records` whose `reason` field is `r`. -/
def countReason (records : List Notification) (r : String) : Nat :=
  (records.filter fun n => n.reason = r).length

/-- The eleven reason codes enumerated in the `values` map of
`Github::update`. -/
def knownReasons : List String :=
  ["assign", "author", "comment", "invitation", "manual", "mention",
   "review_requested", "security_alert", "state_change", "subscribed", "team_mention"]

/-- The `values` map built by `Github::update` on a successful cycle and
handed to `FormatTemplate::render` (`Value::from_integer(.. as i64)` is an
integer entry; counts never reach `2^63`, so the cast is the identity). -/
def updateValues (total : Nat) (aggregations : List (String × Nat)) : List (String × Int) :=
  [("total", Int.ofNat total),
   ("assign", Int.ofNat ((lookupA aggregations "assign").getD 0)),
   ("author", Int.ofNat ((lookupA aggregations "author").getD 0)),
   ("comment", Int.ofNat ((lookupA aggregations "comment").getD 0)),
   ("invitation", Int.ofNat ((lookupA aggregations "invitation").getD 0)),
   ("manual", Int.ofNat ((lookupA aggregations "manual").getD 0)),
   ("mention", Int.ofNat ((lookupA aggregations "mention").getD 0)),
   ("review_requested", Int.ofNat ((lookupA aggregations "review_requested").getD 0)),
   ("security_alert", Int.ofNat ((lookupA aggregations "security_alert").getD 0)),
   ("state_change", Int.ofNat ((lookupA aggregations "state_change").getD 0)),
   ("subscribed", Int.ofNat ((lookupA aggregations "subscribed").getD 0)),
   ("team_mention", Int.ofNat ((lookupA aggregations "team_mention").getD 0))]

/-- The mutable fields of `struct Github` that `update` and `view` touch. -/
structure GithubState where
  text : String
  total_notifications : Nat
  hide_if_total_is_zero : Bool
deriving DecidableEq

/-- `Github::update`, parametrised by the rendered-items sequence produced
by the `Notifications` iterator and by the external template renderer.
Returns the state after the call (mutations through `&mut self` persist
even when `?` propagates a render error) next to the call's own result. -/
def update (render : List (String × Int) → Except String String) (s : GithubState)
    (items : List (Except String Notification)) : GithubState × Except String Unit :=
  match tryFoldNotifs items seedTally with
  | .error _ => ({ s with text := "x" }, .ok ())
  | .ok aggregations =>
    let total := (lookupA aggregations "total").getD 0
    let s1 := { s with total_notifications := total }
    match render (updateValues total aggregations) with
    | .error e => (s1, .error e)
    | .ok rendered => ({ s1 with text := rendered }, .ok ())

/-- `Github::view`: the (possibly empty) widget list, each widget modelled
by its displayed text. -/
def view (s : GithubState) : List String :=
  if s.hide_if_total_is_zero && s.total_notifications == 0 then [] else [s.text]

/-!
## The Link-header parser

`parse_links_header` runs
`Regex::new(r#"(<(?P<url>http(s)?://[^>\s]+)>; rel="(?P<rel>[[:word:]]+))+"#)`
with `captures_iter` over the raw header and folds the captures into a
`HashMap`, inserting `rel -> url` (the named groups come from the last
repetition of the outer `(..)+`).  The regex engine is embedded at the
character level: the pattern contains no choice point that survives to its
continuation (the character classes exclude their terminators, and the
`(s)?` branch is decided by the text), so greedy matching with maximal
munch and a one-step fallback for `(s)?` is exact.
-/

/-- The `\s` class of the regex engine: with Unicode support (the
default), `\s` is the Unicode `White_Space` property — the ASCII spaces
U+0009..U+000D and U+0020 plus NEL, NBHY/NBSP, the Ogham space mark, the
U+2000..U+200A spaces, the line and paragraph separators, the narrow
no-break and medium mathematical spaces and the ideographic space. -/
def isRegexSpace (c : Char) : Bool :=
  let n := c.toNat
  (0x9 ≤ n && n ≤ 0xD) || n = 0x20 || n = 0x85 || n = 0xA0 || n = 0x1680
  || (0x2000 ≤ n && n ≤ 0x200A)
  || n = 0x2028 || n = 0x2029 || n = 0x202F || n = 0x205F || n = 0x3000

/-- The class `[^>\s]` of characters allowed inside a captured URL. -/
def isUrlChar (c : Char) : Bool := c ≠ '>' && !isRegexSpace c

/-- The ASCII class `[[:word:]]` of characters allowed in a relation name. -/
def isWordChar (c : Char) : Bool := c.isAlphanum || c = '_'

/-- Consume an exact literal from the head of the input, returning the rest. -/
def stripLit : List Char → List Char → Option (List Char)
  | [], cs => some cs
  | _ :: _, [] => none
  | l :: ls, c :: cs => if c = l then stripLit ls cs else none

/-- Match `(s)?://` right after the literal `http`, returning the matched
characters and the rest.  The greedy `(s)?` first tries to consume an `s`
and falls back to the empty alternative when `://` does not follow. -/
def matchSchemeTail (cs : List Char) : Option (List Char × List Char) :=
  match cs with
  | 's' :: cs' =>
    (match stripLit "://".data cs' with
     | some r => some ("s://".data, r)
     | none =>
       match stripLit "://".data cs with
       | some r => some ("://".data, r)
       | none => none)
  | _ =>
    match stripLit "://".data cs with
    | some r => some ("://".data, r)
    | none => none

/-- Maximal munch of `[^>\s]+`: the nonempty greedy URL body and the rest.
The class excludes `>`, so no shorter munch can be followed by the `>` the
pattern demands next; maximal munch is exact. -/
def matchUrlBody (cs : List Char) : Option (List Char × List Char) :=
  let body := cs.takeWhile isUrlChar
  let rest := cs.dropWhile isUrlChar
  if body = [] then none else some (body, rest)

/-- Maximal munch of `[[:word:]]+`: the nonempty relation name and the
rest.  Nothing of the pattern follows, so maximal munch is exact. -/
def matchRel (cs : List Char) : Option (List Char × List Char) :=
  let relChars := cs.takeWhile isWordChar
  let rest := cs.dropWhile isWordChar
  if relChars = [] then none else some (relChars, rest)

/-- Match one repetition of the group
`<(?P<url>http(s)?://[^>\s]+)>; rel="(?P<rel>[[:word:]]+)` at the head of
the input, returning the two captures and the unconsumed rest. -/
def matchUnit (cs : List Char) : Option (String × String × List Char) :=
  match cs with
  | [] => none
  | c :: cs1 =>
    if c = '<' then
      match stripLit "http".data cs1 with
      | none => none
      | some cs2 =>
        match matchSchemeTail cs2 with
        | none => none
        | some (scheme, cs3) =>
          match matchUrlBody cs3 with
          | none => none
          | some (body, cs4) =>
            match stripLit ">; rel=\"".data cs4 with
            | none => none
            | some cs5 =>
              match matchRel cs5 with
              | none => none
              | some (relChars, cs6) =>
                some (String.mk ("http".data ++ scheme ++ body), String.mk relChars, cs6)
    else none

/-- Greedy `+` over `matchUnit`, keeping the captures of the last
repetition, as the regex engine does for a repeated capturing group.  The
fuel only bounds the recursion; `matchUnit` consumes at least one
character, so `length + 1` units of fuel are never exhausted. -/
def matchPlusAux : Nat → List Char → Option (String × String × List Char)
  | 0, _ => none
  | fuel + 1, cs =>
    match matchUnit cs with
    | none => none
    | some (url, rel, rest) =>
      match matchPlusAux fuel rest with
      | some res => some res
      | none => some (url, rel, rest)

/-- One full match of the pattern at the head of the input. -/
def matchPlus (cs : List Char) : Option (String × String × List Char) :=
  matchPlusAux (cs.length + 1) cs

/-- `captures_iter`: scan left to right, take the leftmost match, emit its
`(rel, url)` captures, continue after the match end; at a position with no
match, advance one character. -/
def scanAux : Nat → List Char → List (String × String)
  | 0, _ => []
  | fuel + 1, cs =>
    match cs with
    | [] => []
    | c :: cs' =>
      match matchPlus (c :: cs') with
      | some (url, rel, rest) => (rel, url) :: scanAux fuel rest
      | none => scanAux fuel cs'

/-- The scan at full fuel: one unit of fuel per character suffices, since
each step either consumes a nonempty match or advances one character. -/
def scanList (cs : List Char) : List (String × String) :=
  scanAux cs.length cs

/-- The `(rel, url)` capture pairs of all matches of the pattern in the raw
header, in match order. -/
def scanEntries (s : String) : List (String × String) :=
  scanList s.data

/-- `parse_links_header`: fold the captures into a map, later entries
overwriting earlier ones. -/
def parse_links_header (raw_links : String) : List (String × String) :=
  (scanEntries raw_links).foldl (fun acc p => insertA acc p.1 p.2) []

/-!
## The paginated fetcher

`Notifications::try_next` keeps a buffer of decoded records and the next
page URL (`""` is the exhausted sentinel).  The HTTP transport
(`http::http_get_json`) is an external collaborator and is injected as a
function from URL to response; the URLs actually requested during a step
are returned alongside the result so that "issues no HTTP request" is a
statement of the model.
-/

/-- The JSON values the transport can hand back. -/
inductive Json where
  | null
  | bool (b : Bool)
  | num (n : Int)
  | str (s : String)
  | arr (elems : List Json)
  | obj (fields : List (String × Json))

/-- Serde decoding of one element as `Notification { reason: String }`:
an object with a string `reason` field; other fields are ignored. -/
def decodeNotification (j : Json) : Except String Notification :=
  match j with
  | .obj fields =>
    (match lookupA fields "reason" with
     | some (.str s) => .ok ⟨s⟩
     | _ => .error "missing or non-string reason field")
  | _ => .error "expected an object"

/-- `serde_json::from_value::<Vec<Notification>>(result.content)`. -/
def decodeNotifications (j : Json) : Except String (List Notification) :=
  match j with
  | .arr elems => elems.mapM decodeNotification
  | _ => .error "expected an array"

/-- What `http::http_get_json` returns on success: raw response header
lines and the decoded JSON body. -/
structure HttpResponse where
  headers : List String
  content : Json

/-- The mutable state of `struct Notifications`: the record buffer and the
pagination cursor (`next_page_url`, `""` when exhausted). -/
structure NotificationsState where
  notifications : List Notification
  next_page_url : String
deriving DecidableEq

/-- The cursor-discovery expression of `try_next`: the first response
header that starts with `Link:` and whose parsed map has a `next` relation
gives the new cursor; otherwise the cursor becomes the empty sentinel. -/
def nextUrlFromHeaders (headers : List String) : String :=
  (headers.findSome? fun h =>
    if h.startsWith "Link:" then lookupA (parse_links_header h) "next" else none).getD ""

/-- One step of the fetcher: the yielded item (or failure), the state after
the step, and the URLs requested during the step. -/
structure StepResult where
  result : Except String (Option Notification)
  state : NotificationsState
  requests : List String

/-- `Notifications::try_next`.  Mirrors the source order: drain the buffer;
stop on the empty sentinel; otherwise issue the request (a transport error
leaves the state untouched), then replace the cursor from the response
headers, then decode the body (a decode error keeps the buffer but the
cursor is already replaced), then refill the buffer and pop its head. -/
def try_next (transport : String → Except String HttpResponse)
    (s : NotificationsState) : StepResult :=
  match s.notifications with
  | notif :: rest => ⟨.ok (some notif), ⟨rest, s.next_page_url⟩, []⟩
  | [] =>
    if s.next_page_url = "" then ⟨.ok none, s, []⟩
    else
      match transport s.next_page_url with
      | .error e => ⟨.error e, s, [s.next_page_url]⟩
      | .ok result =>
        let cursor := nextUrlFromHeaders result.headers
        match decodeNotifications result.content with
        | .error e => ⟨.error e, ⟨s.notifications, cursor⟩, [s.next_page_url]⟩
        | .ok notifs =>
          match notifs with
          | [] => ⟨.ok none, ⟨[], cursor⟩, [s.next_page_url]⟩
          | n :: rest => ⟨.ok (some n), ⟨rest, cursor⟩, [s.next_page_url]⟩

/-- `n` successive calls of `try_next`, collecting every step. -/
def runNexts (transport : String → Except String HttpResponse) :
    Nat → NotificationsState → List StepResult
  | 0, _ => []
  | n + 1, s =>
    let r := try_next transport s
    r :: runNexts transport n r.state

/-!
## Raw headers assembled from well-formed and malformed entries

Used to state that malformed entries are skipped without aborting the
rest of the header (claim C5).
-/

/-- A URL the spec calls valid: it begins with `http://` or `https://` and
its remainder is nonempty and free of whitespace and `>`. -/
def validUrl (url : String) : Prop :=
  ∃ t : List Char,
    (url.data = "http://".data ++ t ∨ url.data = "https://".data ++ t)
    ∧ t ≠ [] ∧ ∀ c ∈ t, isUrlChar c = true

/-- A relation name: a nonempty sequence of word characters. -/
def validRel (rel : String) : Prop :=
  rel.data ≠ [] ∧ ∀ c ∈ rel.data, isWordChar c = true

/-- A URL on which the pattern is bound to fail inside its own entry:
after the mandatory scheme, the greedy `[^>\s]+` munch stops at a
character that is not the `>` the pattern requires next — typically a
whitespace character inside the URL.  The failure happens strictly inside
the entry, whatever text follows it. -/
def urlStallsBeforeGt (url : String) : Prop :=
  ∃ t t1 c t2,
    (url.data = "http://".data ++ t ∨ url.data = "https://".data ++ t)
    ∧ t = t1 ++ c :: t2 ∧ (∀ x ∈ t1, isUrlChar x = true)
    ∧ isUrlChar c = false ∧ c ≠ '>'

/-- One entry of an assembled header: a well-formed `<url>; rel="name"`
link, or one of the malformed shapes the spec names — a bracketed entry
whose URL is invalid (`badUrl`, e.g. whitespace inside the URL), a
bracketed URL with no `rel` attribute at all (`noRel`), or an arbitrary
bracket-free fragment (`bad`, e.g. an entry with no URL). -/
inductive RawEntry where
  | good (rel url : String)
  | noRel (url : String)
  | badUrl (rel url : String)
  | bad (junk : String)

/-- A good entry must have a valid URL and relation name.  The malformed
shapes carry what is needed for them to be genuinely malformed and
self-contained: a `badUrl` entry stalls before its closing `>`, a `noRel`
entry has a valid URL but no rel attribute, and a `bad` fragment opens no
link at all (a fragment containing `<` would begin an entry of its own or
fuse with a neighbour, not merely be skipped). -/
def validEntry : RawEntry → Prop
  | .good rel url => validUrl url ∧ validRel rel
  | .noRel url => validUrl url ∧ '<' ∉ url.data
  | .badUrl rel url =>
      '<' ∉ url.data ∧ (∀ c ∈ rel.data, isWordChar c = true) ∧ urlStallsBeforeGt url
  | .bad junk => ∀ c ∈ junk.data, c ≠ '<'

/-- The raw text of one entry. -/
def entryChars : RawEntry → List Char
  | .good rel url => '<' :: (url.data ++ '>' :: ("; rel=\"".data ++ (rel.data ++ ['"'])))
  | .noRel url => '<' :: (url.data ++ ['>'])
  | .badUrl rel url => '<' :: (url.data ++ '>' :: ("; rel=\"".data ++ (rel.data ++ ['"'])))
  | .bad junk => junk.data

/-- Comma-space-joined entries, as in a real `Link` header. -/
def sepJoin : List RawEntry → List Char
  | [] => []
  | [e] => entryChars e
  | e :: es => entryChars e ++ ',' :: ' ' :: sepJoin es

/-- A full raw header line assembled from the given entries. -/
def headerChars (es : List RawEntry) : List Char :=
  "Link: ".data ++ sepJoin es

/-- The `(rel, url)` pairs of the well-formed entries, in order. -/
def goodPairs : List RawEntry → List (String × String)
  | [] => []
  | .good rel url :: es => (rel, url) :: goodPairs es
  | .noRel _ :: es => goodPairs es
  | .badUrl _ _ :: es => goodPairs es
  | .bad _ :: es => goodPairs es

/-- A concrete response used to exercise the decode-failure path: a
`next` link in the headers and a non-array body. -/
def pageWithBadBody : HttpResponse :=
  ⟨["Link: <https://api.github.com/notifications?page=2>; rel=\"next\""], Json.str "bad"⟩

/-- A transport that always serves `pageWithBadBody`. -/
def badBodyTransport : String → Except String HttpResponse :=
  fun _ => Except.ok pageWithBadBody

/-- A freshly constructed fetcher state for the default API server, as
`Notifications::new` builds it. -/
def freshFetcher : NotificationsState :=
  ⟨[], "https://api.github.com/notifications"⟩

/-!
## Association-list lemmas
-/

theorem lookupA_insertA_self {α : Type} (m : List (String × α)) (k : String) (v : α) :
    lookupA (insertA m k v) k = some v := by
  induction m with
  | nil => simp [insertA, lookupA]
  | cons p rest ih =>
    by_cases h : p.1 = k
    · simp [insertA, h, lookupA]
    · simp [insertA, h, lookupA, ih]

theorem lookupA_insertA_ne {α : Type} (m : List (String × α)) (k k' : String) (v : α)
    (h : k' ≠ k) : lookupA (insertA m k v) k' = lookupA m k' := by
  induction m with
  | nil => simp [insertA, lookupA, Ne.symm h]
  | cons p rest ih =>
    by_cases hp : p.1 = k
    · simp [insertA, hp, lookupA, Ne.symm h]
    · simp [insertA, hp, lookupA, ih]

theorem lookupA_bumpOrInsert_self (m : List (String × Nat)) (k : String) :
    lookupA (bumpOrInsert m k) k = some ((lookupA m k).getD 0 + 1) := by
  induction m with
  | nil => simp [bumpOrInsert, lookupA]
  | cons p rest ih =>
    by_cases h : p.1 = k
    · simp [bumpOrInsert, h, lookupA]
    · simp [bumpOrInsert, h, lookupA, ih]

theorem lookupA_bumpOrInsert_ne (m : List (String × Nat)) (k k' : String)
    (h : k' ≠ k) : lookupA (bumpOrInsert m k) k' = lookupA m k' := by
  induction m with
  | nil => simp [bumpOrInsert, lookupA, Ne.symm h]
  | cons p rest ih =>
    by_cases hp : p.1 = k
    · simp [bumpOrInsert, hp, lookupA, Ne.symm h]
    · simp [bumpOrInsert, hp, lookupA, ih]

theorem lookupA_bumpIfPresent_self (m : List (String × Nat)) (k : String) :
    lookupA (bumpIfPresent m k) k = (lookupA m k).map (· + 1) := by
  induction m with
  | nil => simp [bumpIfPresent, lookupA]
  | cons p rest ih =>
    by_cases h : p.1 = k
    · simp [bumpIfPresent, h, lookupA]
    · simpa [bumpIfPresent, h, lookupA] using ih

theorem lookupA_bumpIfPresent_ne (m : List (String × Nat)) (k k' : String)
    (h : k' ≠ k) : lookupA (bumpIfPresent m k) k' = lookupA m k' := by
  induction m with
  | nil => simp [bumpIfPresent, lookupA]
  | cons p rest ih =>
    by_cases hp : p.1 = k
    · rw [show lookupA (p :: rest) k' = lookupA rest k' by
        simp [lookupA, hp, Ne.symm h]]
      simpa [bumpIfPresent, hp, lookupA, Ne.symm h] using ih
    · by_cases hk : p.1 = k'
      · simp [bumpIfPresent, hp, lookupA, hk, h]
      · simpa [bumpIfPresent, hp, lookupA, hk] using ih

/-!
## Aggregation-fold lemmas
-/

theorem tryFoldNotifs_map_ok (records : List Notification) (acc : List (String × Nat)) :
    tryFoldNotifs (records.map Except.ok) acc = Except.ok (records.foldl aggStep acc) := by
  induction records generalizing acc with
  | nil => rfl
  | cons n rest ih => simpa [tryFoldNotifs] using ih (aggStep acc n)

theorem tryFoldNotifs_isError_of_mem (items : List (Except String Notification))
    (acc : List (String × Nat)) (e : String) (h : Except.error e ∈ items) :
    ∃ e', tryFoldNotifs items acc = Except.error e' := by
  induction items generalizing acc with
  | nil => cases h
  | cons item rest ih =>
    cases item with
    | error e0 => exact ⟨e0, rfl⟩
    | ok n =>
      rcases List.mem_cons.mp h with h1 | h2
      · simp at h1
      · exact ih (aggStep acc n) h2

theorem countReason_cons (n : Notification) (rest : List Notification) (r : String) :
    countReason (n :: rest) r = countReason rest r + if n.reason = r then 1 else 0 := by
  by_cases h : n.reason = r <;> simp [countReason, List.filter, h]

theorem foldl_aggStep_total (records : List Notification) (acc : List (String × Nat)) (t : Nat)
    (hr : ∀ n ∈ records, n.reason ≠ "total")
    (ha : lookupA acc "total" = some t) :
    lookupA (records.foldl aggStep acc) "total" = some (t + records.length) := by
  induction records generalizing acc t with
  | nil => simpa using ha
  | cons n rest ih =>
    have hn : n.reason ≠ "total" := hr n (by simp)
    have h1 : lookupA (aggStep acc n) "total" = some (t + 1) := by
      unfold aggStep
      rw [lookupA_bumpIfPresent_self, lookupA_bumpOrInsert_ne _ _ _ (Ne.symm hn), ha]
      rfl
    rw [List.foldl_cons,
      ih (aggStep acc n) (t + 1) (fun m hm => hr m (List.mem_cons_of_mem _ hm)) h1]
    simp only [List.length_cons, Option.some.injEq]
    omega

theorem foldl_aggStep_reason (records : List Notification) (acc : List (String × Nat))
    (r : String) (hr : r ≠ "total") :
    lookupA (records.foldl aggStep acc) r =
      if countReason records r = 0 then lookupA acc r
      else some ((lookupA acc r).getD 0 + countReason records r) := by
  induction records generalizing acc with
  | nil => simp [countReason]
  | cons n rest ih =>
    rw [List.foldl_cons, ih (aggStep acc n), countReason_cons]
    by_cases hnr : n.reason = r
    · have hstep : lookupA (aggStep acc n) r = some ((lookupA acc r).getD 0 + 1) := by
        unfold aggStep
        rw [lookupA_bumpIfPresent_ne _ _ _ hr, hnr]
        exact lookupA_bumpOrInsert_self acc r
      by_cases h0 : countReason rest r = 0
      · simp [h0, hnr, hstep]
      · simp [h0, hnr, hstep]
        omega
    · have hstep : lookupA (aggStep acc n) r = lookupA acc r := by
        unfold aggStep
        rw [lookupA_bumpIfPresent_ne _ _ _ hr,
          lookupA_bumpOrInsert_ne _ _ _ (fun hh => hnr hh.symm)]
      by_cases h0 : countReason rest r = 0 <;> simp [h0, hnr, hstep]

/-- On a successful cycle the tally is the plain fold of `aggStep`, and a
key other than `"total"` holds exactly the number of records with that
reason (absent when the count is zero); no hypothesis on the reasons is
needed for the non-`"total"` keys. -/
theorem tally_reason_count (records : List Notification) (r : String) (hr : r ≠ "total") :
    lookupA (records.foldl aggStep seedTally) r =
      if countReason records r = 0 then none else some (countReason records r) := by
  rw [foldl_aggStep_reason records seedTally r hr]
  have hseed : lookupA seedTally r = none := by
    simp [seedTally, lookupA, Ne.symm hr]
  by_cases h0 : countReason records r = 0 <;> simp [h0, hseed]

/-!
## Claims about the aggregation and the update cycle
-/

/-- C1 (counterexample): the claim fails on a sequence whose single record
has the reason-code string `"total"`: the record's reason bump and the
synthetic total bump hit the same key, so the tally is `{"total": 2}`,
while the claim demands a total of 1 (the number of records) and a
`"total"` entry of 1 (the number of records with that reason). -/
theorem update_fold_total_reason_collision :
    tryFoldNotifs [Except.ok (Notification.mk "total")] seedTally
        = Except.ok [("total", 2)]
      ∧ List.length [Notification.mk "total"] = 1 :=
  ⟨rfl, rfl⟩

/-- C1 (amended): for a sequence of records none of whose reasons is the
literal string `"total"`, the fold of `Github::update` from the seed
`{"total": 0}` succeeds with a tally whose `"total"` entry is the number
of records and whose entry for any other reason-code string `r` is the
number of records with reason `r`, present exactly when that number is
positive. -/
theorem update_fold_counts (records : List Notification)
    (h : ∀ n ∈ records, n.reason ≠ "total") :
    ∃ tally,
      tryFoldNotifs (records.map Except.ok) seedTally = Except.ok tally
      ∧ lookupA tally "total" = some records.length
      ∧ ∀ r : String, r ≠ "total" →
          lookupA tally r =
            if countReason records r = 0 then none else some (countReason records r) := by
  refine ⟨records.foldl aggStep seedTally, tryFoldNotifs_map_ok records seedTally, ?_, ?_⟩
  · simpa using foldl_aggStep_total records seedTally 0 h (by rfl)
  · exact fun r hr => tally_reason_count records r hr

/-- Witness for `update_fold_counts` at a concrete three-record sequence. -/
theorem update_fold_counts_witness :
    (∀ n ∈ [Notification.mk "mention", Notification.mk "mention", Notification.mk "assign"],
        n.reason ≠ "total")
    ∧ ∃ tally,
        tryFoldNotifs
            ([Notification.mk "mention", Notification.mk "mention",
              Notification.mk "assign"].map Except.ok) seedTally = Except.ok tally
        ∧ lookupA tally "total"
            = some [Notification.mk "mention", Notification.mk "mention",
                Notification.mk "assign"].length
        ∧ ∀ r : String, r ≠ "total" →
            lookupA tally r =
              if countReason [Notification.mk "mention", Notification.mk "mention",
                  Notification.mk "assign"] r = 0 then none
              else some (countReason [Notification.mk "mention", Notification.mk "mention",
                  Notification.mk "assign"] r) :=
  ⟨by decide, update_fold_counts _ (by decide)⟩

/-- Each known reason code is present in the `values` map with the integer
image of its tally count (defaulted to zero). -/
theorem lookupA_updateValues (total : Nat) (aggs : List (String × Nat)) (r : String)
    (hr : r ∈ knownReasons) :
    lookupA (updateValues total aggs) r = some (Int.ofNat ((lookupA aggs r).getD 0)) := by
  fin_cases hr <;> rfl

/-- C8: on every successful update cycle the `values` map handed to the
template renderer (the map `Github::update` builds from the fold result
`aggs` and passes to `FormatTemplate::render`) has an integer entry for
`"total"` and for each of the eleven known reason codes; the entry of a
known code equals the number of fetched records with that reason, hence is
`0` whenever the code was never observed. -/
theorem update_values_zero_filled (records : List Notification)
    (aggs : List (String × Nat))
    (h : tryFoldNotifs (records.map Except.ok) seedTally = Except.ok aggs) :
    (∃ t : Int,
      lookupA (updateValues ((lookupA aggs "total").getD 0) aggs) "total" = some t)
    ∧ ∀ r ∈ knownReasons,
        lookupA (updateValues ((lookupA aggs "total").getD 0) aggs) r
            = some (Int.ofNat (countReason records r))
        ∧ (countReason records r = 0 →
            lookupA (updateValues ((lookupA aggs "total").getD 0) aggs) r = some 0) := by
  have haggs : records.foldl aggStep seedTally = aggs := by
    have hm := tryFoldNotifs_map_ok records seedTally
    rw [h] at hm
    simpa using hm.symm
  have hval : ∀ r : String, r ≠ "total" →
      (lookupA aggs r).getD 0 = countReason records r := by
    intro r hr
    rw [← haggs, tally_reason_count records r hr]
    by_cases h0 : countReason records r = 0 <;> simp [h0]
  refine ⟨⟨Int.ofNat ((lookupA aggs "total").getD 0), rfl⟩, fun r hrk => ?_⟩
  have hr : r ≠ "total" := by fin_cases hrk <;> decide
  refine ⟨?_, fun h0 => ?_⟩
  · rw [lookupA_updateValues _ _ r hrk, hval r hr]
  · rw [lookupA_updateValues _ _ r hrk, hval r hr, h0]
    rfl

/-- Witness for `update_values_zero_filled` at a one-record fetch. -/
theorem update_values_zero_filled_witness :
    tryFoldNotifs ([Notification.mk "mention"].map Except.ok) seedTally
        = Except.ok [("total", 1), ("mention", 1)]
    ∧ ((∃ t : Int,
        lookupA (updateValues
            ((lookupA [("total", 1), ("mention", 1)] "total").getD 0)
            [("total", 1), ("mention", 1)]) "total" = some t)
      ∧ ∀ r ∈ knownReasons,
          lookupA (updateValues
              ((lookupA [("total", 1), ("mention", 1)] "total").getD 0)
              [("total", 1), ("mention", 1)]) r
              = some (Int.ofNat (countReason [Notification.mk "mention"] r))
          ∧ (countReason [Notification.mk "mention"] r = 0 →
              lookupA (updateValues
                  ((lookupA [("total", 1), ("mention", 1)] "total").getD 0)
                  [("total", 1), ("mention", 1)]) r = some 0)) :=
  ⟨rfl, update_values_zero_filled [Notification.mk "mention"] _ rfl⟩

/-- `Github::view` returns the empty widget list exactly when the hide
flag is set and the cached total is zero. -/
theorem view_eq_nil_iff (s : GithubState) :
    view s = [] ↔ s.hide_if_total_is_zero = true ∧ s.total_notifications = 0 := by
  unfold view
  split <;> rename_i hb <;> simp only [Bool.and_eq_true, beq_iff_eq] at hb
  · simp [hb]
  · simpa using hb

/-- C10: `view` is empty exactly when `hide_if_total_is_zero` is set and
the cached `total_notifications` is zero, and otherwise is exactly the one
text widget; after a failed cycle the decision is still taken on the prior
successful cycle's total, because `update` did not change it. -/
theorem view_visibility
    (render : List (String × Int) → Except String String) (s : GithubState)
    (items : List (Except String Notification)) (e : String)
    (hfail : tryFoldNotifs items seedTally = Except.error e) :
    (view s = [] ↔ s.hide_if_total_is_zero = true ∧ s.total_notifications = 0)
    ∧ (¬(s.hide_if_total_is_zero = true ∧ s.total_notifications = 0) → view s = [s.text])
    ∧ (view (update render s items).1 = []
        ↔ s.hide_if_total_is_zero = true ∧ s.total_notifications = 0) := by
  have hupd : (update render s items).1 = { s with text := "x" } := by
    simp [update, hfail]
  refine ⟨view_eq_nil_iff s, fun hn => ?_, ?_⟩
  · unfold view
    have hb : ¬(s.hide_if_total_is_zero && s.total_notifications == 0) = true := by
      simpa [Bool.and_eq_true, beq_iff_eq] using hn
    simp [hb]
  · rw [hupd]
    simpa using view_eq_nil_iff { s with text := "x" }

/-- Witness for `view_visibility`: a failed cycle over a state whose last
successful total was 2 with the hide flag set; the widget stays visible. -/
theorem view_visibility_witness :
    tryFoldNotifs [(Except.error "net" : Except String Notification)] seedTally
        = Except.error "net"
    ∧ ((view (⟨"2", 2, true⟩ : GithubState) = []
          ↔ (⟨"2", 2, true⟩ : GithubState).hide_if_total_is_zero = true
            ∧ (⟨"2", 2, true⟩ : GithubState).total_notifications = 0)
      ∧ (¬((⟨"2", 2, true⟩ : GithubState).hide_if_total_is_zero = true
            ∧ (⟨"2", 2, true⟩ : GithubState).total_notifications = 0) →
          view (⟨"2", 2, true⟩ : GithubState) = [(⟨"2", 2, true⟩ : GithubState).text])
      ∧ (view (update (fun _ => Except.ok "2") (⟨"2", 2, true⟩ : GithubState)
            [(Except.error "net" : Except String Notification)]).1 = []
          ↔ (⟨"2", 2, true⟩ : GithubState).hide_if_total_is_zero = true
            ∧ (⟨"2", 2, true⟩ : GithubState).total_notifications = 0)) :=
  ⟨rfl, view_visibility _ _ _ "net" rfl⟩

/-- C2: when any element of the produced sequence is a failure, the whole
`try_fold` aggregation fails — no tally is returned at all — and
`Github::update` only sets the displayed text to the fixed error
indicator `"x"`, leaving the rest of the state (in particular the cached
`total_notifications`) untouched. -/
theorem update_failure_discards_tally
    (render : List (String × Int) → Except String String) (s : GithubState)
    (items : List (Except String Notification)) (e : String)
    (h : Except.error e ∈ items) :
    (∃ e', tryFoldNotifs items seedTally = Except.error e')
    ∧ update render s items = ({ s with text := "x" }, Except.ok ()) := by
  obtain ⟨e', he⟩ := tryFoldNotifs_isError_of_mem items seedTally e h
  exact ⟨⟨e', he⟩, by simp [update, he]⟩

/-- Witness for `update_failure_discards_tally`: one good record followed
by a transport failure. -/
theorem update_failure_discards_tally_witness :
    Except.error "transport" ∈
        [Except.ok (Notification.mk "mention"), Except.error "transport"]
    ∧ ((∃ e', tryFoldNotifs
          [Except.ok (Notification.mk "mention"), Except.error "transport"] seedTally
          = Except.error e')
      ∧ update (fun _ => Except.ok "1") ⟨"1", 1, false⟩
          [Except.ok (Notification.mk "mention"), Except.error "transport"]
          = (⟨"x", 1, false⟩, Except.ok ())) :=
  ⟨by simp, update_failure_discards_tally _ _ _ "transport" (by simp)⟩

/-- C7: on any failed cycle (the `try_fold` aggregation returns an error),
`Github::update` leaves `total_notifications` and the hide flag exactly as
they were after the prior cycle and only replaces the displayed text with
the fixed error indicator `"x"`. -/
theorem update_failure_frame
    (render : List (String × Int) → Except String String) (s : GithubState)
    (items : List (Except String Notification)) (e : String)
    (h : tryFoldNotifs items seedTally = Except.error e) :
    (update render s items).1.total_notifications = s.total_notifications
    ∧ (update render s items).1.hide_if_total_is_zero = s.hide_if_total_is_zero
    ∧ (update render s items).1.text = "x"
    ∧ (update render s items).2 = Except.ok () := by
  simp [update, h]

/-- Witness for `update_failure_frame`: a decode failure on the very first
item with a nonzero cached total. -/
theorem update_failure_frame_witness :
    tryFoldNotifs [(Except.error "decode" : Except String Notification)] seedTally
        = Except.error "decode"
    ∧ ((update (fun _ => Except.ok "7") ⟨"7", 7, true⟩
          [(Except.error "decode" : Except String Notification)]).1.total_notifications = 7
      ∧ (update (fun _ => Except.ok "7") ⟨"7", 7, true⟩
          [(Except.error "decode" : Except String Notification)]).1.hide_if_total_is_zero = true
      ∧ (update (fun _ => Except.ok "7") ⟨"7", 7, true⟩
          [(Except.error "decode" : Except String Notification)]).1.text = "x"
      ∧ (update (fun _ => Except.ok "7") ⟨"7", 7, true⟩
          [(Except.error "decode" : Except String Notification)]).2 = Except.ok ()) :=
  ⟨rfl, update_failure_frame _ _ _ "decode" rfl⟩

/-!
## Claims about the fetcher
-/

/-- C6: once the record buffer is empty and the cursor is the empty
sentinel, every subsequent call of `try_next` yields "no more elements",
leaves the state unchanged and issues no HTTP request, for any number of
calls and any transport. -/
theorem exhausted_fetcher_never_refetches
    (transport : String → Except String HttpResponse) (s : NotificationsState)
    (hbuf : s.notifications = []) (hurl : s.next_page_url = "") (n : Nat) :
    ∀ r ∈ runNexts transport n s, r.result = Except.ok none ∧ r.requests = [] := by
  have hs : s = ⟨[], ""⟩ := by
    cases s
    simp_all
  subst hs
  induction n with
  | zero => simp [runNexts]
  | succ n ih =>
    intro r hr
    have hstep : try_next transport ⟨[], ""⟩
        = ⟨Except.ok none, (⟨[], ""⟩ : NotificationsState), []⟩ := rfl
    rw [runNexts, hstep] at hr
    rcases List.mem_cons.mp hr with h1 | h2
    · subst h1
      exact ⟨rfl, rfl⟩
    · exact ih r h2

/-- Witness for `exhausted_fetcher_never_refetches`: three extra calls on
an exhausted fetcher against a transport that would fail if consulted. -/
theorem exhausted_fetcher_never_refetches_witness :
    (⟨[], ""⟩ : NotificationsState).notifications = []
    ∧ (⟨[], ""⟩ : NotificationsState).next_page_url = ""
    ∧ ∀ r ∈ runNexts (fun _ => Except.error "down") 3 ⟨[], ""⟩,
        r.result = Except.ok none ∧ r.requests = [] :=
  ⟨rfl, rfl, exhausted_fetcher_never_refetches _ _ rfl rfl 3⟩

/-- With an empty buffer, one `try_next` step requests exactly the cursor
URL, or nothing when the cursor is the empty sentinel. -/
theorem try_next_requests (transport : String → Except String HttpResponse)
    (st : NotificationsState) (h : st.notifications = []) :
    (try_next transport st).requests
      = if st.next_page_url = "" then [] else [st.next_page_url] := by
  obtain ⟨buf, url⟩ := st
  simp only at h
  subst h
  by_cases hu : url = ""
  · simp [try_next, hu]
  · cases ht : transport url with
    | error e => simp [try_next, hu, ht]
    | ok resp =>
      cases hd : decodeNotifications resp.content with
      | error e => simp [try_next, hu, ht, hd]
      | ok notifs => cases notifs <;> simp [try_next, hu, ht, hd]

/-- C9: when the page request succeeds but decoding the body fails, the
step surfaces the decode error only after the cursor has been replaced by
the response's `next` link (or the empty sentinel), with the record buffer
unchanged; the following call therefore requests exactly the new cursor
(or terminates on the sentinel) and, whenever the new cursor differs from
the failed page's URL, never re-requests that URL. -/
theorem decode_failure_advances_cursor
    (transport : String → Except String HttpResponse) (s : NotificationsState)
    (resp : HttpResponse) (e : String)
    (hbuf : s.notifications = [])
    (hurl : s.next_page_url ≠ "")
    (ht : transport s.next_page_url = Except.ok resp)
    (hdec : decodeNotifications resp.content = Except.error e) :
    try_next transport s
        = ⟨Except.error e, ⟨s.notifications, nextUrlFromHeaders resp.headers⟩,
            [s.next_page_url]⟩
    ∧ (try_next transport (try_next transport s).state).requests
        = (if nextUrlFromHeaders resp.headers = "" then []
           else [nextUrlFromHeaders resp.headers])
    ∧ (nextUrlFromHeaders resp.headers ≠ s.next_page_url →
        s.next_page_url ∉ (try_next transport (try_next transport s).state).requests) := by
  obtain ⟨buf, url⟩ := s
  simp only at hbuf hurl ht
  subst hbuf
  have hmain : try_next transport ⟨[], url⟩
      = ⟨Except.error e, ⟨[], nextUrlFromHeaders resp.headers⟩, [url]⟩ := by
    simp [try_next, hurl, ht, hdec]
  refine ⟨hmain, ?_, ?_⟩
  · rw [hmain]
    exact try_next_requests transport ⟨[], nextUrlFromHeaders resp.headers⟩ rfl
  · intro hne
    rw [hmain, try_next_requests transport ⟨[], nextUrlFromHeaders resp.headers⟩ rfl]
    by_cases h0 : nextUrlFromHeaders resp.headers = ""
    · simp [h0]
    · rw [if_neg h0]
      simp only [List.mem_singleton]
      exact fun hh => hne hh.symm

/-- Witness for `decode_failure_advances_cursor`: the transport returns a
page with a `next` link but a body that is not an array. -/
theorem decode_failure_advances_cursor_witness :
    freshFetcher.notifications = []
    ∧ freshFetcher.next_page_url ≠ ""
    ∧ badBodyTransport freshFetcher.next_page_url = Except.ok pageWithBadBody
    ∧ decodeNotifications pageWithBadBody.content = Except.error "expected an array"
    ∧ (try_next badBodyTransport freshFetcher
        = ⟨Except.error "expected an array",
            ⟨freshFetcher.notifications, nextUrlFromHeaders pageWithBadBody.headers⟩,
            [freshFetcher.next_page_url]⟩
      ∧ (try_next badBodyTransport (try_next badBodyTransport freshFetcher).state).requests
          = (if nextUrlFromHeaders pageWithBadBody.headers = "" then []
             else [nextUrlFromHeaders pageWithBadBody.headers])
      ∧ (nextUrlFromHeaders pageWithBadBody.headers ≠ freshFetcher.next_page_url →
          freshFetcher.next_page_url
            ∉ (try_next badBodyTransport
                (try_next badBodyTransport freshFetcher).state).requests)) :=
  ⟨rfl, by decide, rfl, rfl,
    decode_failure_advances_cursor badBodyTransport freshFetcher pageWithBadBody
      "expected an array" rfl (by decide) rfl rfl⟩

/-!
## Scanner lemmas: consumption bounds and fuel irrelevance
-/

theorem stripLit_length (ls : List Char) :
    ∀ (cs r : List Char), stripLit ls cs = some r → r.length ≤ cs.length := by
  induction ls with
  | nil =>
    intro cs r h
    simp only [stripLit, Option.some.injEq] at h
    simp [h]
  | cons l ls ih =>
    intro cs r h
    cases cs with
    | nil => simp [stripLit] at h
    | cons c cs' =>
      simp only [stripLit] at h
      split at h
      · exact le_trans (ih cs' r h) (by simp)
      · simp at h

theorem matchSchemeTail_length (cs : List Char) (sch r : List Char)
    (h : matchSchemeTail cs = some (sch, r)) : r.length ≤ cs.length := by
  unfold matchSchemeTail at h
  split at h
  · rename_i heads
    cases h1 : stripLit "://".data heads with
    | some r1 =>
      simp only [h1, Option.some.injEq, Prod.mk.injEq] at h
      have := stripLit_length _ _ _ h1
      rw [← h.2]
      simp only [List.length_cons]
      omega
    | none =>
      simp only [h1] at h
      cases h2 : stripLit "://".data ('s' :: heads) with
      | some r2 =>
        simp only [h2, Option.some.injEq, Prod.mk.injEq] at h
        exact h.2 ▸ stripLit_length _ _ _ h2
      | none => simp [h2] at h
  · cases h2 : stripLit "://".data cs with
    | some r2 =>
      simp only [h2, Option.some.injEq, Prod.mk.injEq] at h
      exact h.2 ▸ stripLit_length _ _ _ h2
    | none => simp [h2] at h

theorem length_dropWhile_le {α : Type} (p : α → Bool) (l : List α) :
    (l.dropWhile p).length ≤ l.length := by
  induction l with
  | nil => simp [List.dropWhile]
  | cons a l ih =>
    rw [List.dropWhile_cons]
    split
    · exact le_trans ih (by simp)
    · simp

theorem matchUrlBody_length (cs body rest : List Char)
    (h : matchUrlBody cs = some (body, rest)) : rest.length ≤ cs.length := by
  simp only [matchUrlBody] at h
  split at h
  · simp at h
  · simp only [Option.some.injEq, Prod.mk.injEq] at h
    exact h.2 ▸ length_dropWhile_le _ _

theorem matchRel_length (cs relChars rest : List Char)
    (h : matchRel cs = some (relChars, rest)) : rest.length ≤ cs.length := by
  simp only [matchRel] at h
  split at h
  · simp at h
  · simp only [Option.some.injEq, Prod.mk.injEq] at h
    exact h.2 ▸ length_dropWhile_le _ _

theorem matchUnit_length (cs : List Char) (u r : String) (rest : List Char)
    (h : matchUnit cs = some (u, r, rest)) : rest.length < cs.length := by
  cases cs with
  | nil => simp [matchUnit] at h
  | cons c cs1 =>
    simp only [matchUnit] at h
    by_cases hc : c = '<'
    · rw [if_pos hc] at h
      cases h2 : stripLit "http".data cs1 with
      | none => simp [h2] at h
      | some cs2 =>
        simp only [h2] at h
        cases h3 : matchSchemeTail cs2 with
        | none => simp [h3] at h
        | some p3 =>
          obtain ⟨scheme, cs3⟩ := p3
          simp only [h3] at h
          cases h4 : matchUrlBody cs3 with
          | none => simp [h4] at h
          | some p4 =>
            obtain ⟨body, cs4⟩ := p4
            simp only [h4] at h
            cases h5 : stripLit ">; rel=\"".data cs4 with
            | none => simp [h5] at h
            | some cs5 =>
              simp only [h5] at h
              cases h6 : matchRel cs5 with
              | none => simp [h6] at h
              | some p6 =>
                obtain ⟨relChars, cs6⟩ := p6
                simp only [h6, Option.some.injEq, Prod.mk.injEq] at h
                have l6 : cs6.length ≤ cs5.length := matchRel_length _ _ _ h6
                have l5 : cs5.length ≤ cs4.length := stripLit_length _ _ _ h5
                have l4 : cs4.length ≤ cs3.length := matchUrlBody_length _ _ _ h4
                have l3 : cs3.length ≤ cs2.length := matchSchemeTail_length _ _ _ h3
                have l2 : cs2.length ≤ cs1.length := stripLit_length _ _ _ h2
                have hrest : rest = cs6 := h.2.2.symm
                simp only [List.length_cons, hrest]
                omega
    · simp [hc] at h

theorem matchPlusAux_length (fuel : Nat) :
    ∀ (cs : List Char) (u r : String) (rest : List Char),
      matchPlusAux fuel cs = some (u, r, rest) → rest.length < cs.length := by
  induction fuel with
  | zero => intro cs u r rest h; simp [matchPlusAux] at h
  | succ fuel ih =>
    intro cs u r rest h
    simp only [matchPlusAux] at h
    cases hm : matchUnit cs with
    | none => simp [hm] at h
    | some t =>
      obtain ⟨u0, r0, rest0⟩ := t
      simp only [hm] at h
      have h0 : rest0.length < cs.length := matchUnit_length _ _ _ _ hm
      cases hp : matchPlusAux fuel rest0 with
      | none =>
        simp only [hp, Option.some.injEq, Prod.mk.injEq] at h
        exact h.2.2 ▸ h0
      | some t2 =>
        simp only [hp, Option.some.injEq] at h
        subst h
        exact lt_trans (ih rest0 _ _ _ hp) h0

theorem matchPlus_length (cs : List Char) (u r : String) (rest : List Char)
    (h : matchPlus cs = some (u, r, rest)) : rest.length < cs.length :=
  matchPlusAux_length _ _ _ _ _ h

theorem matchPlusAux_congr (fuel : Nat) :
    ∀ (cs : List Char), cs.length < fuel →
      ∀ (fuel' : Nat), cs.length < fuel' → matchPlusAux fuel cs = matchPlusAux fuel' cs := by
  induction fuel with
  | zero => intro cs h; omega
  | succ fuel ih =>
    intro cs hcs fuel' hcs'
    cases fuel' with
    | zero => omega
    | succ fuel' =>
      simp only [matchPlusAux]
      cases hm : matchUnit cs with
      | none => rfl
      | some t =>
        obtain ⟨u0, r0, rest0⟩ := t
        have h0 : rest0.length < cs.length := matchUnit_length _ _ _ _ hm
        simp only
        rw [ih rest0 (by omega) fuel' (by omega)]

/-- The one-step unfolding of `matchPlus`: one unit, then greedily the
rest, keeping the captures of the last repetition. -/
theorem matchPlus_eq (cs : List Char) :
    matchPlus cs =
      match matchUnit cs with
      | none => none
      | some (u, r, rest) =>
        match matchPlus rest with
        | some res => some res
        | none => some (u, r, rest) := by
  have step : matchPlus cs =
      (match matchUnit cs with
       | none => none
       | some (u, r, rest) =>
         match matchPlusAux cs.length rest with
         | some res => some res
         | none => some (u, r, rest)) := rfl
  rw [step]
  cases hm : matchUnit cs with
  | none => rfl
  | some t =>
    obtain ⟨u0, r0, rest0⟩ := t
    have h0 : rest0.length < cs.length := matchUnit_length _ _ _ _ hm
    simp only [hm]
    rw [matchPlusAux_congr cs.length rest0 h0 (rest0.length + 1) (by omega)]
    rfl

theorem scanAux_nil (fuel : Nat) : scanAux fuel [] = [] := by
  cases fuel <;> rfl

theorem scanAux_congr (fuel : Nat) :
    ∀ (cs : List Char), cs.length ≤ fuel →
      ∀ (fuel' : Nat), cs.length ≤ fuel' → scanAux fuel cs = scanAux fuel' cs := by
  induction fuel with
  | zero =>
    intro cs h fuel' h'
    have : cs = [] := List.length_eq_zero.mp (Nat.le_zero.mp h)
    subst this
    rw [scanAux_nil, scanAux_nil]
  | succ fuel ih =>
    intro cs hcs fuel' hcs'
    cases cs with
    | nil => rw [scanAux_nil, scanAux_nil]
    | cons c cs1 =>
      cases fuel' with
      | zero => simp at hcs'
      | succ fuel' =>
        simp only [scanAux]
        cases hm : matchPlus (c :: cs1) with
        | none =>
          simp only [hm]
          simp only [List.length_cons] at hcs hcs'
          exact ih cs1 (by omega) fuel' (by omega)
        | some t =>
          obtain ⟨u0, r0, rest0⟩ := t
          have h0 : rest0.length < (c :: cs1).length := matchPlus_length _ _ _ _ hm
          simp only [hm]
          simp only [List.length_cons] at hcs hcs' h0
          rw [ih rest0 (by omega) fuel' (by omega)]

/-- Scanning an empty input yields nothing. -/
theorem scanList_nil : scanList [] = [] := rfl

/-- A position where the pattern does not match is skipped: the scan keeps
going on the rest of the input instead of aborting. -/
theorem scanList_skip (c : Char) (cs : List Char) (h : matchPlus (c :: cs) = none) :
    scanList (c :: cs) = scanList cs := by
  unfold scanList
  simp only [List.length_cons, scanAux, h]

/-- A position where the pattern matches contributes the captures of the
match, and the scan resumes after its end. -/
theorem scanList_match (c : Char) (cs : List Char) (u r : String) (rest : List Char)
    (h : matchPlus (c :: cs) = some (u, r, rest)) :
    scanList (c :: cs) = (r, u) :: scanList rest := by
  unfold scanList
  simp only [List.length_cons, scanAux, h]
  have h0 : rest.length < (c :: cs).length := matchPlus_length _ _ _ _ h
  simp only [List.length_cons] at h0
  rw [scanAux_congr cs.length rest (by omega) rest.length (le_refl _)]

/-!
## Scanner evaluation on well-formed and malformed entries
-/

theorem stripLit_append (ls cs : List Char) : stripLit ls (ls ++ cs) = some cs := by
  induction ls with
  | nil => rfl
  | cons l ls ih => simp [stripLit, ih]

/-- Closed-form equation for a unit match at an opening `<`. -/
theorem matchUnit_cons_lt (cs1 : List Char) :
    matchUnit ('<' :: cs1) =
      match stripLit "http".data cs1 with
      | none => none
      | some cs2 =>
        match matchSchemeTail cs2 with
        | none => none
        | some (scheme, cs3) =>
          match matchUrlBody cs3 with
          | none => none
          | some (body, cs4) =>
            match stripLit ">; rel=\"".data cs4 with
            | none => none
            | some cs5 =>
              match matchRel cs5 with
              | none => none
              | some (relChars, cs6) =>
                some (String.mk ("http".data ++ scheme ++ body), String.mk relChars, cs6) :=
  rfl

theorem matchUnit_cons_ne (c : Char) (cs : List Char) (hc : c ≠ '<') :
    matchUnit (c :: cs) = none := by
  simp [matchUnit, hc]

theorem matchUrlBody_append (t : List Char) (c : Char) (rest : List Char)
    (hall : ∀ x ∈ t, isUrlChar x = true) (hc : isUrlChar c = false) (hne : t ≠ []) :
    matchUrlBody (t ++ c :: rest) = some (t, c :: rest) := by
  simp only [matchUrlBody]
  rw [List.takeWhile_append_of_pos hall, List.dropWhile_append_of_pos hall]
  simp [List.takeWhile_cons, List.dropWhile_cons, hc, hne]

theorem matchRel_append (t : List Char) (c : Char) (rest : List Char)
    (hall : ∀ x ∈ t, isWordChar x = true) (hc : isWordChar c = false) (hne : t ≠ []) :
    matchRel (t ++ c :: rest) = some (t, c :: rest) := by
  simp only [matchRel]
  rw [List.takeWhile_append_of_pos hall, List.dropWhile_append_of_pos hall]
  simp [List.takeWhile_cons, List.dropWhile_cons, hc, hne]

/-- A well-formed link entry `<url>; rel="name` at the head of the input
matches one repetition of the pattern exactly, capturing the URL and the
relation name and stopping right before the closing quote. -/
theorem matchUnit_good (url rel : String) (tail : List Char)
    (hu : validUrl url) (hrel : validRel rel) :
    matchUnit ('<' :: (url.data ++ ('>' :: ("; rel=\"".data ++ (rel.data ++ ('"' :: tail))))))
      = some (url, rel, '"' :: tail) := by
  obtain ⟨t, hcase, htne, htchars⟩ := hu
  obtain ⟨hrne, hrchars⟩ := hrel
  have hbody : matchUrlBody (t ++ '>' :: ("; rel=\"".data ++ (rel.data ++ ('"' :: tail))))
      = some (t, '>' :: ("; rel=\"".data ++ (rel.data ++ ('"' :: tail)))) :=
    matchUrlBody_append t '>' _ htchars (by decide) htne
  have hgt : stripLit ">; rel=\"".data ('>' :: ("; rel=\"".data ++ (rel.data ++ ('"' :: tail))))
      = some (rel.data ++ ('"' :: tail)) := rfl
  have hrel2 : matchRel (rel.data ++ '"' :: tail) = some (rel.data, '"' :: tail) :=
    matchRel_append rel.data '"' tail hrchars (by decide) hrne
  rw [matchUnit_cons_lt]
  rcases hcase with hh | hh
  · have hd : url.data ++ ('>' :: ("; rel=\"".data ++ (rel.data ++ ('"' :: tail))))
        = "http".data ++ ("://".data ++ (t ++ '>' :: ("; rel=\"".data ++ (rel.data ++ ('"' :: tail))))) := by
      rw [hh, List.append_assoc]
      rfl
    rw [hd]
    have l1 : stripLit "http".data
        ("http".data ++ ("://".data ++ (t ++ '>' :: ("; rel=\"".data ++ (rel.data ++ ('"' :: tail))))))
        = some ("://".data ++ (t ++ '>' :: ("; rel=\"".data ++ (rel.data ++ ('"' :: tail))))) :=
      stripLit_append _ _
    have l2 : matchSchemeTail
        ("://".data ++ (t ++ '>' :: ("; rel=\"".data ++ (rel.data ++ ('"' :: tail)))))
        = some ("://".data, t ++ '>' :: ("; rel=\"".data ++ (rel.data ++ ('"' :: tail)))) := rfl
    have hu2 : String.mk ("http".data ++ "://".data ++ t) = url := by
      have : ("http".data ++ "://".data) ++ t = url.data := by
        rw [hh]
        rfl
      rw [this]
    simp only [l1, l2, hbody, hgt, hrel2, hu2]
  · have hd : url.data ++ ('>' :: ("; rel=\"".data ++ (rel.data ++ ('"' :: tail))))
        = "http".data ++ ("s://".data ++ (t ++ '>' :: ("; rel=\"".data ++ (rel.data ++ ('"' :: tail))))) := by
      rw [hh, List.append_assoc]
      rfl
    rw [hd]
    have l1 : stripLit "http".data
        ("http".data ++ ("s://".data ++ (t ++ '>' :: ("; rel=\"".data ++ (rel.data ++ ('"' :: tail))))))
        = some ("s://".data ++ (t ++ '>' :: ("; rel=\"".data ++ (rel.data ++ ('"' :: tail))))) :=
      stripLit_append _ _
    have l2 : matchSchemeTail
        ("s://".data ++ (t ++ '>' :: ("; rel=\"".data ++ (rel.data ++ ('"' :: tail)))))
        = some ("s://".data, t ++ '>' :: ("; rel=\"".data ++ (rel.data ++ ('"' :: tail)))) := rfl
    have hu2 : String.mk ("http".data ++ "s://".data ++ t) = url := by
      have : ("http".data ++ "s://".data) ++ t = url.data := by
        rw [hh]
        rfl
      rw [this]
    simp only [l1, l2, hbody, hgt, hrel2, hu2]

theorem matchPlus_none_of_unit (cs : List Char) (h : matchUnit cs = none) :
    matchPlus cs = none := by
  rw [matchPlus_eq]
  simp [h]

theorem matchPlus_single (cs : List Char) (u r : String) (rest : List Char)
    (h1 : matchUnit cs = some (u, r, rest)) (h2 : matchUnit rest = none) :
    matchPlus cs = some (u, r, rest) := by
  rw [matchPlus_eq]
  simp [h1, matchPlus_none_of_unit rest h2]

/-- Characters that cannot open a link entry are skipped without effect:
whatever garbage precedes the rest of the input contributes nothing. -/
theorem scanList_append_no_lt (pre rest : List Char) (h : ∀ c ∈ pre, c ≠ '<') :
    scanList (pre ++ rest) = scanList rest := by
  induction pre with
  | nil => simp
  | cons c pre ih =>
    have hc : c ≠ '<' := h c (by simp)
    have hmu : matchUnit (c :: (pre ++ rest)) = none := matchUnit_cons_ne _ _ hc
    rw [List.cons_append, scanList_skip _ _ (matchPlus_none_of_unit _ hmu)]
    exact ih (fun x hx => h x (by simp [hx]))

theorem stripLit_cons_ne (l : Char) (ls : List Char) (c : Char) (cs : List Char)
    (h : c ≠ l) : stripLit (l :: ls) (c :: cs) = none := by
  simp [stripLit, h]

theorem matchUrlBody_stall (t1 : List Char) (c : Char) (t2 : List Char)
    (h1 : ∀ x ∈ t1, isUrlChar x = true) (hc : isUrlChar c = false) :
    matchUrlBody (t1 ++ c :: t2) = if t1 = [] then none else some (t1, c :: t2) := by
  simp only [matchUrlBody]
  rw [List.takeWhile_append_of_pos h1, List.dropWhile_append_of_pos h1]
  simp [List.takeWhile_cons, List.dropWhile_cons, hc]

/-- A bracketed entry whose URL stalls before its `>` never matches the
pattern, whatever text follows the opening bracket's entry. -/
theorem matchUnit_stalled (url : String) (rest : List Char) (h : urlStallsBeforeGt url) :
    matchUnit ('<' :: (url.data ++ rest)) = none := by
  obtain ⟨t, t1, c, t2, hcase, ht, h1, hc, hcgt⟩ := h
  have hsplit : t ++ rest = t1 ++ c :: (t2 ++ rest) := by
    rw [ht, List.append_assoc]
    rfl
  have hbody := matchUrlBody_stall t1 c (t2 ++ rest) h1 hc
  have hfail : stripLit ">; rel=\"".data (c :: (t2 ++ rest)) = none := by
    rw [show (">; rel=\"").data = '>' :: "; rel=\"".data from rfl]
    exact stripLit_cons_ne _ _ _ _ hcgt
  rw [matchUnit_cons_lt]
  rcases hcase with hh | hh
  · have hd : url.data ++ rest = "http".data ++ ("://".data ++ (t1 ++ c :: (t2 ++ rest))) := by
      rw [hh, List.append_assoc, hsplit]
      rfl
    rw [hd]
    have l1 : stripLit "http".data ("http".data ++ ("://".data ++ (t1 ++ c :: (t2 ++ rest))))
        = some ("://".data ++ (t1 ++ c :: (t2 ++ rest))) := stripLit_append _ _
    have l2 : matchSchemeTail ("://".data ++ (t1 ++ c :: (t2 ++ rest)))
        = some ("://".data, t1 ++ c :: (t2 ++ rest)) := rfl
    simp only [l1, l2, hbody]
    by_cases ht1 : t1 = []
    · simp [ht1]
    · simp [if_neg ht1, hfail]
  · have hd : url.data ++ rest = "http".data ++ ("s://".data ++ (t1 ++ c :: (t2 ++ rest))) := by
      rw [hh, List.append_assoc, hsplit]
      rfl
    rw [hd]
    have l1 : stripLit "http".data ("http".data ++ ("s://".data ++ (t1 ++ c :: (t2 ++ rest))))
        = some ("s://".data ++ (t1 ++ c :: (t2 ++ rest))) := stripLit_append _ _
    have l2 : matchSchemeTail ("s://".data ++ (t1 ++ c :: (t2 ++ rest)))
        = some ("s://".data, t1 ++ c :: (t2 ++ rest)) := rfl
    simp only [l1, l2, hbody]
    by_cases ht1 : t1 = []
    · simp [ht1]
    · simp [if_neg ht1, hfail]

/-- A bracketed URL with no `rel` attribute never matches the pattern,
whether the entry is followed by a separator or ends the header. -/
theorem matchUnit_missing_rel (url : String) (K : List Char) (hu : validUrl url)
    (hK : K = [] ∨ ∃ Z, K = ',' :: Z) :
    matchUnit ('<' :: (url.data ++ ('>' :: K))) = none := by
  obtain ⟨t, hcase, htne, htchars⟩ := hu
  have hbody : matchUrlBody (t ++ '>' :: K) = some (t, '>' :: K) :=
    matchUrlBody_append t '>' K htchars (by decide) htne
  have hfail : stripLit ">; rel=\"".data ('>' :: K) = none := by
    rcases hK with rfl | ⟨Z, rfl⟩
    · rfl
    · rfl
  rw [matchUnit_cons_lt]
  rcases hcase with hh | hh
  · have hd : url.data ++ ('>' :: K) = "http".data ++ ("://".data ++ (t ++ '>' :: K)) := by
      rw [hh, List.append_assoc]
      rfl
    rw [hd]
    have l1 : stripLit "http".data ("http".data ++ ("://".data ++ (t ++ '>' :: K)))
        = some ("://".data ++ (t ++ '>' :: K)) := stripLit_append _ _
    have l2 : matchSchemeTail ("://".data ++ (t ++ '>' :: K))
        = some ("://".data, t ++ '>' :: K) := rfl
    simp only [l1, l2, hbody, hfail]
  · have hd : url.data ++ ('>' :: K) = "http".data ++ ("s://".data ++ (t ++ '>' :: K)) := by
      rw [hh, List.append_assoc]
      rfl
    rw [hd]
    have l1 : stripLit "http".data ("http".data ++ ("s://".data ++ (t ++ '>' :: K)))
        = some ("s://".data ++ (t ++ '>' :: K)) := stripLit_append _ _
    have l2 : matchSchemeTail ("s://".data ++ (t ++ '>' :: K))
        = some ("s://".data, t ++ '>' :: K) := rfl
    simp only [l1, l2, hbody, hfail]

/-- Scanning a bracketed entry with no `rel` attribute contributes nothing
and resumes at the text after the entry. -/
theorem scanList_noRel_entry (url : String) (K : List Char) (hu : validUrl url)
    (hlt : '<' ∉ url.data) (hK : K = [] ∨ ∃ Z, K = ',' :: Z) :
    scanList ('<' :: (url.data ++ ('>' :: K))) = scanList K := by
  have hmu := matchUnit_missing_rel url K hu hK
  rw [scanList_skip _ _ (matchPlus_none_of_unit _ hmu)]
  rw [show url.data ++ ('>' :: K) = (url.data ++ ['>']) ++ K from by simp]
  apply scanList_append_no_lt
  intro x hx
  rcases List.mem_append.mp hx with h | h
  · exact fun he => hlt (he ▸ h)
  · fin_cases h
    decide

/-- Scanning a bracketed entry whose URL stalls before its `>` (for
instance because it contains whitespace) contributes nothing and resumes
at the text after the entry. -/
theorem scanList_badUrl_entry (rel url : String) (K : List Char)
    (hlt : '<' ∉ url.data) (hrel : ∀ c ∈ rel.data, isWordChar c = true)
    (hst : urlStallsBeforeGt url) :
    scanList ('<' :: (url.data ++ ('>' :: ("; rel=\"".data ++ (rel.data ++ ('"' :: K))))))
      = scanList K := by
  have hmu := matchUnit_stalled url ('>' :: ("; rel=\"".data ++ (rel.data ++ ('"' :: K)))) hst
  rw [scanList_skip _ _ (matchPlus_none_of_unit _ hmu)]
  rw [show url.data ++ ('>' :: ("; rel=\"".data ++ (rel.data ++ ('"' :: K))))
      = (url.data ++ ('>' :: ("; rel=\"".data ++ (rel.data ++ ['"'])))) ++ K from by simp]
  apply scanList_append_no_lt
  intro x hx
  rcases List.mem_append.mp hx with h | h
  · exact fun he => hlt (he ▸ h)
  · rcases List.mem_cons.mp h with rfl | h
    · decide
    · rcases List.mem_append.mp h with h | h
      · exact (by decide : ∀ y ∈ ("; rel=\"").data, y ≠ '<') x h
      · rcases List.mem_append.mp h with h | h
        · intro he
          have hw := hrel x h
          rw [he] at hw
          exact absurd hw (by decide)
        · fin_cases h
          decide

/-- Scanning a well-formed entry yields exactly its capture pair and
resumes after the closing quote. -/
theorem scanList_good_entry (rel url : String) (tail : List Char)
    (hu : validUrl url) (hrel : validRel rel) :
    scanList ('<' :: (url.data ++ ('>' :: ("; rel=\"".data ++ (rel.data ++ ('"' :: tail))))))
      = (rel, url) :: scanList tail := by
  have hm := matchUnit_good url rel tail hu hrel
  have hstop : matchUnit ('"' :: tail) = none := matchUnit_cons_ne _ _ (by decide)
  have hp := matchPlus_single _ _ _ _ hm hstop
  rw [scanList_match _ _ _ _ _ hp, scanList_skip '"' tail (matchPlus_none_of_unit _ hstop)]

/-- Scanning a separated list of entries yields exactly the capture pairs
of the well-formed ones, in order; malformed entries are skipped and do
not disturb their neighbours. -/
theorem scanList_sepJoin (es : List RawEntry) (hv : ∀ e ∈ es, validEntry e) :
    scanList (sepJoin es) = goodPairs es := by
  induction es with
  | nil => rfl
  | cons e rest ih =>
    have hve : validEntry e := hv e (by simp)
    have hvr : ∀ x ∈ rest, validEntry x := fun x hx => hv x (by simp [hx])
    cases rest with
    | nil =>
      cases e with
      | bad junk =>
        have hskip : scanList (junk.data ++ []) = scanList [] :=
          scanList_append_no_lt _ _ hve
        simpa [sepJoin, entryChars, goodPairs, scanList_nil] using hskip
      | good rel url =>
        obtain ⟨hu, hr⟩ := hve
        rw [show sepJoin [RawEntry.good rel url] = entryChars (RawEntry.good rel url) from rfl,
          show entryChars (RawEntry.good rel url)
            = '<' :: (url.data ++ ('>' :: ("; rel=\"".data ++ (rel.data ++ ('"' :: ([] : List Char))))))
            from rfl,
          scanList_good_entry rel url [] hu hr]
        rfl
      | noRel url =>
        obtain ⟨hu, hlt⟩ := hve
        rw [show sepJoin [RawEntry.noRel url] = entryChars (RawEntry.noRel url) from rfl,
          show entryChars (RawEntry.noRel url)
            = '<' :: (url.data ++ ('>' :: ([] : List Char))) from rfl,
          scanList_noRel_entry url [] hu hlt (Or.inl rfl)]
        rfl
      | badUrl rel url =>
        obtain ⟨hlt, hrel, hst⟩ := hve
        rw [show sepJoin [RawEntry.badUrl rel url] = entryChars (RawEntry.badUrl rel url) from rfl,
          show entryChars (RawEntry.badUrl rel url)
            = '<' :: (url.data ++ ('>' :: ("; rel=\"".data ++ (rel.data ++ ('"' :: ([] : List Char))))))
            from rfl,
          scanList_badUrl_entry rel url [] hlt hrel hst]
        rfl
    | cons e2 rest2 =>
      have hsep : sepJoin (e :: e2 :: rest2)
          = entryChars e ++ (',' :: ' ' :: sepJoin (e2 :: rest2)) := rfl
      cases e with
      | bad junk =>
        rw [hsep]
        have hpre : ∀ c ∈ junk.data ++ [',', ' '], c ≠ '<' := by
          intro c hc
          rcases List.mem_append.mp hc with h | h
          · exact hve c h
          · fin_cases h <;> decide
        calc scanList (entryChars (RawEntry.bad junk) ++ (',' :: ' ' :: sepJoin (e2 :: rest2)))
            = scanList ((junk.data ++ [',', ' ']) ++ sepJoin (e2 :: rest2)) := by
              simp [entryChars, List.append_assoc]
          _ = scanList (sepJoin (e2 :: rest2)) := scanList_append_no_lt _ _ hpre
          _ = goodPairs (e2 :: rest2) := ih hvr
      | good rel url =>
        obtain ⟨hu, hr⟩ := hve
        rw [hsep]
        have he : entryChars (RawEntry.good rel url) ++ (',' :: ' ' :: sepJoin (e2 :: rest2))
            = '<' :: (url.data ++ ('>' :: ("; rel=\"".data
                ++ (rel.data ++ ('"' :: (',' :: ' ' :: sepJoin (e2 :: rest2))))))) := by
          simp [entryChars, List.append_assoc]
        rw [he, scanList_good_entry rel url _ hu hr]
        have hskip : scanList (',' :: ' ' :: sepJoin (e2 :: rest2))
            = scanList (sepJoin (e2 :: rest2)) := by
          have := scanList_append_no_lt [',', ' '] (sepJoin (e2 :: rest2)) (by decide)
          simpa using this
        rw [hskip, ih hvr]
        rfl
      | noRel url =>
        obtain ⟨hu, hlt⟩ := hve
        rw [hsep]
        have he : entryChars (RawEntry.noRel url) ++ (',' :: ' ' :: sepJoin (e2 :: rest2))
            = '<' :: (url.data ++ ('>' :: (',' :: ' ' :: sepJoin (e2 :: rest2)))) := by
          simp [entryChars, List.append_assoc]
        rw [he, scanList_noRel_entry url _ hu hlt
          (Or.inr ⟨' ' :: sepJoin (e2 :: rest2), rfl⟩)]
        have hskip : scanList (',' :: ' ' :: sepJoin (e2 :: rest2))
            = scanList (sepJoin (e2 :: rest2)) := by
          have := scanList_append_no_lt [',', ' '] (sepJoin (e2 :: rest2)) (by decide)
          simpa using this
        rw [hskip, ih hvr]
        rfl
      | badUrl rel url =>
        obtain ⟨hlt, hrel, hst⟩ := hve
        rw [hsep]
        have he : entryChars (RawEntry.badUrl rel url) ++ (',' :: ' ' :: sepJoin (e2 :: rest2))
            = '<' :: (url.data ++ ('>' :: ("; rel=\"".data
                ++ (rel.data ++ ('"' :: (',' :: ' ' :: sepJoin (e2 :: rest2))))))) := by
          simp [entryChars, List.append_assoc]
        rw [he, scanList_badUrl_entry rel url _ hlt hrel hst]
        have hskip : scanList (',' :: ' ' :: sepJoin (e2 :: rest2))
            = scanList (sepJoin (e2 :: rest2)) := by
          have := scanList_append_no_lt [',', ' '] (sepJoin (e2 :: rest2)) (by decide)
          simpa using this
        rw [hskip, ih hvr]
        rfl

/-!
## Fold lemmas for the capture map
-/

theorem optionMap_or {α β : Type} (f : α → β) (a b : Option α) :
    (Option.or a b).map f = Option.or (a.map f) (b.map f) := by
  cases a <;> rfl

theorem getLast?_cons_or {α : Type} (a : α) (l : List α) :
    (a :: l).getLast? = Option.or l.getLast? (some a) := by
  induction l generalizing a with
  | nil => rfl
  | cons b t ih =>
    rw [List.getLast?_cons_cons, ih b, Option.or_assoc,
      show Option.or (some b) (some a) = some b from rfl]

/-- Folding the captures into the map resolves every key to its last
occurrence among the captures, falling back to the initial map. -/
theorem lookupA_foldl_insertA (es : List (String × String)) :
    ∀ (m : List (String × String)) (r : String),
      lookupA (es.foldl (fun acc p => insertA acc p.1 p.2) m) r
        = Option.or (((es.filter fun p => p.1 = r).getLast?).map Prod.snd) (lookupA m r) := by
  induction es with
  | nil => intro m r; simp
  | cons p rest ih =>
    intro m r
    rw [List.foldl_cons, ih]
    by_cases hp : p.1 = r
    · rw [List.filter_cons_of_pos (by simp [hp]), getLast?_cons_or, optionMap_or]
      have hins : lookupA (insertA m p.1 p.2) r = some p.2 := by
        rw [hp]
        exact lookupA_insertA_self m r p.2
      rw [hins, Option.or_assoc, show Option.map Prod.snd (some p) = some p.2 from rfl,
        show Option.or (some p.2) (lookupA m r) = some p.2 from rfl]
    · rw [List.filter_cons_of_neg (by simp [hp]),
        lookupA_insertA_ne m p.1 r p.2 (fun hh => hp hh.symm)]

/-!
## Claims about the Link-header parser
-/

/-- C4: whenever a relation name occurs in two or more well-formed link
entries of the header (the entries the pattern recognises, in scan order),
the parsed map associates it with the URL of the last such entry: the
left-to-right fold lets later captures overwrite earlier ones. -/
theorem links_last_occurrence_wins (raw : String) (r : String)
    (_hdup : 2 ≤ ((scanEntries raw).filter fun p => p.1 = r).length) :
    lookupA (parse_links_header raw) r
      = (((scanEntries raw).filter fun p => p.1 = r).getLast?).map Prod.snd := by
  unfold parse_links_header
  rw [lookupA_foldl_insertA, show lookupA ([] : List (String × String)) r = none from rfl,
    Option.or_none]

/-- Witness for `links_last_occurrence_wins`: a header naming `next`
twice; the parsed map holds the second URL. -/
theorem links_last_occurrence_wins_witness :
    2 ≤ ((scanEntries "Link: <https://a/1>; rel=\"next\", <https://a/2>; rel=\"next\"").filter
          fun p => p.1 = "next").length
    ∧ lookupA
        (parse_links_header "Link: <https://a/1>; rel=\"next\", <https://a/2>; rel=\"next\"")
        "next"
      = (((scanEntries "Link: <https://a/1>; rel=\"next\", <https://a/2>; rel=\"next\"").filter
            fun p => p.1 = "next").getLast?).map Prod.snd :=
  ⟨by decide, links_last_occurrence_wins _ _ (by decide)⟩

/-- C5: the parser is a total function on strings; over a header assembled
from well-formed links and malformed entries of the shapes the spec
names — a bracketed entry whose URL is invalid (its `[^>\s]+` munch stops
at a whitespace or other excluded character before the closing `>`), a
bracketed URL missing the `rel` attribute, or a bracket-free fragment
with no URL at all — every malformed entry contributes nothing and does
not prevent the remaining entries of the same header from being parsed:
the result is exactly the fold of the well-formed pairs (the empty map
when none is well-formed). -/
theorem parse_links_header_skips_malformed (es : List RawEntry)
    (hv : ∀ e ∈ es, validEntry e) :
    parse_links_header (String.mk (headerChars es))
      = (goodPairs es).foldl (fun acc p => insertA acc p.1 p.2) [] := by
  unfold parse_links_header
  rw [show scanEntries (String.mk (headerChars es)) = scanList (headerChars es) from rfl]
  unfold headerChars
  rw [scanList_append_no_lt _ _ (by decide), scanList_sepJoin es hv]

/-- Witness for `parse_links_header_skips_malformed`: a fragment with a
`rel` but no URL, a bracketed entry whose URL contains a space, one
well-formed entry, and a bracketed URL with no `rel` attribute; only the
well-formed pair survives. -/
theorem parse_links_header_skips_malformed_witness :
    (∀ e ∈ [RawEntry.bad "junk >; rel=\"prev\"", RawEntry.badUrl "self" "https://a b",
        RawEntry.good "next" "https://a/2", RawEntry.noRel "https://a/3"], validEntry e)
    ∧ parse_links_header
        (String.mk (headerChars [RawEntry.bad "junk >; rel=\"prev\"",
          RawEntry.badUrl "self" "https://a b", RawEntry.good "next" "https://a/2",
          RawEntry.noRel "https://a/3"]))
        = (goodPairs [RawEntry.bad "junk >; rel=\"prev\"",
            RawEntry.badUrl "self" "https://a b", RawEntry.good "next" "https://a/2",
            RawEntry.noRel "https://a/3"]).foldl
            (fun acc p => insertA acc p.1 p.2) [] := by
  have hv : ∀ e ∈ [RawEntry.bad "junk >; rel=\"prev\"", RawEntry.badUrl "self" "https://a b",
      RawEntry.good "next" "https://a/2", RawEntry.noRel "https://a/3"], validEntry e := by
    intro e he
    simp only [List.mem_cons, List.not_mem_nil, or_false] at he
    rcases he with rfl | rfl | rfl | rfl
    · show ∀ c ∈ ("junk >; rel=\"prev\"").data, c ≠ '<'
      decide
    · exact ⟨by decide, by decide,
        "a b".data, "a".data, ' ', "b".data, Or.inr rfl, rfl, by decide, by decide, by decide⟩
    · exact ⟨⟨"a/2".data, Or.inr rfl, by decide, by decide⟩, by decide, by decide⟩
    · exact ⟨⟨"a/3".data, Or.inr rfl, by decide, by decide⟩, by decide⟩
  exact ⟨hv, parse_links_header_skips_malformed _ hv⟩

/-- C3: parsing the raw header of the repository's unit test yields
exactly the four-entry map (the association list is in first-insertion
order; all four relation names are distinct, so the map holds the four
pairs and nothing else). -/
theorem parse_links_header_example :
    parse_links_header "Link: <https://api.github.com/notifications?page=1>; rel=\"prev\", <https://api.github.com/notifications?page=3>; rel=\"next\", <https://api.github.com/notifications?page=4>; rel=\"last\", <https://api.github.com/notifications?page=1>; rel=\"first\""
      = [("prev", "https://api.github.com/notifications?page=1"),
         ("next", "https://api.github.com/notifications?page=3"),
         ("last", "https://api.github.com/notifications?page=4"),
         ("first", "https://api.github.com/notifications?page=1")] := by
  decide

end Github
